import Mathlib

set_option maxRecDepth 100000

/-!
Verification of the resume-search re-ranking and education-matching core of
the Avesta AI application.

The definitions below are a shallow embedding of the Python source:

* `fixed_education_matcher.py` (class `FixedEducationMatcher`; the class
  `EnhancedEducationMatcher` in `enhanced_web_app.py` is line-identical)
* `enhanced_web_app.py` (the four search handlers and the legacy scorers)
* `hiresight_engine.py` (`score_education`, `search_by_skills`,
  `search_by_education`)

Modelling conventions:

* Python `str` becomes `String` / `List Char`; all scanning is done over
  `List Char`.  `str.lower()` and the `re` word-character class are modelled
  for the ASCII range, which covers every keyword table in the source.
* Python `float` becomes `ℚ`.  Every literal the code adds or compares
  (0.5, 0.3, 0.2, 0.1, 0.6, 0.3/0.4 weights, 1 - distance) is exactly
  representable or rounds so that every comparison performed by the code
  (`> 0.6`, `min`/`max` clamps, tuple sorting) has the same outcome in IEEE
  doubles as in ℚ; the display-only `round(x, 4)` formatting of the handlers
  is omitted.
* The education regexes are word-boundary-delimited alternations of literals
  with optional dots.  They are embedded as alternation lists of
  literal/optional items and executed by a scanner (`scanAux`) that follows
  Python `re.findall` semantics: leftmost match, alternatives in order,
  greedy optionals, non-overlapping continuation.
* The vector-search collaborator (`search_profiles`) is an injected function
  argument; file-system lookups (`find_original_resume`, previews) and the
  metadata passthrough of the payloads are display-only and omitted.  A
  re-ranked result is modelled as the pair (composite score, candidate).
-/

/-! ### Character and string utilities -/

/-- Word characters of Python `re` (`\w` / `\b`), ASCII range. -/
def isWordChar (c : Char) : Bool :=
  c.isAlpha || c.isDigit || c = '_'

/-- Whitespace characters removed by Python `str.strip()` and matched by `\s`. -/
def isPySpace (c : Char) : Bool :=
  c = ' ' || c = '\t' || c = '\n' || c = '\r' || c = '\x0b' || c = '\x0c'

/-- Python `str.lower()` (ASCII range). -/
def lowerChars (cs : List Char) : List Char :=
  cs.map Char.toLower

/-- Python `str.strip()`. -/
def stripChars (cs : List Char) : List Char :=
  ((cs.dropWhile isPySpace).reverse.dropWhile isPySpace).reverse

/-- Python `str.strip()` on `String`. -/
def stripStr (s : String) : String :=
  String.mk (stripChars s.data)

/-- Python substring test `needle in hay`. -/
def isSub : List Char → List Char → Bool
  | n, [] => n.isEmpty
  | n, h :: t => ((h :: t).take n.length == n) || isSub n t

/-- Python `text.split(chr(10))`: split into lines at newline characters. -/
def splitLines : List Char → List (List Char)
  | [] => [[]]
  | c :: cs =>
    if c = '\n' then [] :: splitLines cs
    else
      match splitLines cs with
      | [] => [[c]]
      | l :: ls => (c :: l) :: ls

/-- Python `(chr(10)).join(lines)` over char lists. -/
def joinNL : List (List Char) → List Char
  | [] => []
  | [l] => l
  | l :: ls => l ++ '\n' :: joinNL ls

/-- Numeric value of a digit run (Python `int` on a `\d+` match). -/
def natOfDigits (ds : List Char) : Nat :=
  ds.foldl (fun a c => a * 10 + (c.toNat - ('0').toNat)) 0

/-! ### A scanner for the education regexes

Every education pattern in the source has the shape
`\b(?:alt1|alt2|...)\b` where each alternative is a sequence of literal
characters, some dots being optional (`\.?`).  `PItem` is one element of an
alternative; a pattern is the list of its alternatives. -/

inductive PItem where
  | lit (c : Char)
  | opt (c : Char)
deriving DecidableEq, Repr

/-- A pattern: alternatives (in regex alternation order), each a sequence of
literal / optional characters. -/
abbrev RePattern := List (List PItem)

/-- All expansions of one alternative, in Python backtracking priority order
(greedy: the variant keeping an optional character comes first). -/
def expans : List PItem → List (List Char)
  | [] => [[]]
  | .lit c :: rest => (expans rest).map (fun l => c :: l)
  | .opt c :: rest => (expans rest).map (fun l => c :: l) ++ expans rest

/-- Candidate literal strings of a pattern, in match-priority order. -/
def candsOf (pat : RePattern) : List (List Char) :=
  (pat.map expans).flatten

/-- The `\b` assertion between two (optional) adjacent characters. -/
def wb (prev next : Option Char) : Bool :=
  (match prev with | some c => isWordChar c | none => false) !=
  (match next with | some c => isWordChar c | none => false)

/-- Try the candidates at the current position: the first one that is a
prefix of `cs` and is followed by a word boundary (the leading boundary is
checked by the caller). -/
def matchHere (cands : List (List Char)) (cs : List Char) : Option (List Char) :=
  cands.find? fun cand =>
    (!cand.isEmpty) && (cs.take cand.length == cand) &&
      wb cand.getLast? (cs.drop cand.length).head?

/-- The scan loop of `re.findall`: walk the text left to right, at each word
boundary try the candidates in priority order, emit the match and resume
after it (non-overlapping), otherwise advance one character.  `prev` is the
character before the current position, `fuel` bounds the number of steps
(one character is consumed per step). -/
def scanAux (cands : List (List Char)) : Nat → Option Char → List Char → List (List Char)
  | 0, _, _ => []
  | _ + 1, _, [] => []
  | fuel + 1, prev, c :: rest =>
    if wb prev (some c) then
      match matchHere cands (c :: rest) with
      | some cand =>
        cand :: scanAux cands fuel cand.getLast? ((c :: rest).drop cand.length)
      | none => scanAux cands fuel (some c) rest
    else scanAux cands fuel (some c) rest

/-- Python `re.findall(pattern, text)` for an education pattern. -/
def findallP (pat : RePattern) (cs : List Char) : List String :=
  (scanAux (candsOf pat) cs.length none cs).map String.mk


/-! ### The education pattern tables (`self.education_patterns`)

Transcribed from `FixedEducationMatcher.__init__` (identical in
`EnhancedEducationMatcher`).  Each level maps to two raw regexes; both are
kept because `find_education_matches` runs `re.findall` for each of them and
concatenates the results. -/

/-- A literal alternative (no optional characters). -/
def lits (s : String) : List PItem :=
  s.data.map PItem.lit

/-- An ASCII apostrophe, kept out of string literals. -/
def apos : String := "\x27"

/-- Alternatives of the first phd regex. -/
def phdPat1 : RePattern :=
  [ [.lit 'p', .lit 'h', .opt '.', .lit 'd', .opt '.'],
    lits ("doctor of philosophy"), lits ("doctorate"), lits ("doctoral"),
    lits ("d.phil"), lits ("dphil") ]

/-- Alternatives of the second phd regex. -/
def phdPat2 : RePattern :=
  [ lits ("phd"), lits ("ph.d"), lits ("ph.d."),
    lits ("doctor of philosophy"), lits ("doctorate"), lits ("doctoral"),
    lits ("d.phil"), lits ("dphil") ]

/-- Alternatives of the first masters regex. -/
def mastersPat1 : RePattern :=
  [ [.lit 'm', .opt '.', .lit 's', .opt '.'],
    [.lit 'm', .opt '.', .lit 't', .lit 'e', .lit 'c', .lit 'h'],
    lits ("mtech"),
    [.lit 'm', .opt '.', .lit 's', .lit 'c'],
    lits ("msc"), lits ("master of"), lits ("mba"),
    [.lit 'm', .opt '.', .lit 'e', .opt '.'],
    lits ("me"), lits ("mca"),
    [.lit 'm', .opt '.', .lit 'c', .lit 'o', .lit 'm'],
    lits ("mcom"),
    [.lit 'm', .opt '.', .lit 'a', .opt '.'],
    lits ("ma"), lits ("master" ++ apos ++ "s"), lits ("master degree") ]

/-- Alternatives of the second masters regex. -/
def mastersPat2 : RePattern :=
  [ lits ("m.s."), lits ("ms"), lits ("m.tech"), lits ("mtech"),
    lits ("m.sc"), lits ("msc"), lits ("master of"), lits ("mba"),
    lits ("m.e."), lits ("me"), lits ("mca"), lits ("m.com"), lits ("mcom"),
    lits ("m.a."), lits ("ma"), lits ("master" ++ apos ++ "s"),
    lits ("master degree") ]

/-- Alternatives of the first bachelors regex. -/
def bachelorsPat1 : RePattern :=
  [ [.lit 'b', .opt '.', .lit 'e', .opt '.'],
    lits ("btech"),
    [.lit 'b', .opt '.', .lit 't', .lit 'e', .lit 'c', .lit 'h'],
    [.lit 'b', .opt '.', .lit 's', .lit 'c'],
    lits ("bsc"), lits ("bca"),
    [.lit 'b', .opt '.', .lit 'e', .lit 'n', .lit 'g'],
    lits ("bachelor of"), lits ("bachelor" ++ apos ++ "s"),
    [.lit 'b', .opt '.', .lit 'c', .lit 'o', .lit 'm'],
    lits ("bcom"),
    [.lit 'b', .opt '.', .lit 'a', .opt '.'],
    lits ("ba"), lits ("bachelor degree"),
    lits ("bachelor of technology"), lits ("bachelor of engineering") ]

/-- Alternatives of the second bachelors regex. -/
def bachelorsPat2 : RePattern :=
  [ lits ("b.e."), lits ("btech"), lits ("b.tech"), lits ("b.sc"),
    lits ("bsc"), lits ("bca"), lits ("b.eng"), lits ("bachelor of"),
    lits ("bachelor" ++ apos ++ "s"), lits ("b.com"), lits ("bcom"),
    lits ("b.a."), lits ("ba"), lits ("bachelor degree"),
    lits ("bachelor of technology"), lits ("bachelor of engineering") ]

/-- `self.education_patterns` as a function from level name to its regex
list; a level outside the dict has no patterns (`level not in
self.education_patterns` makes the loop skip it). -/
def education_patterns : String → List RePattern
  | "phd" => [phdPat1, phdPat2]
  | "masters" => [mastersPat1, mastersPat2]
  | "bachelors" => [bachelorsPat1, bachelorsPat2]
  | _ => []

/-- `self.education_hierarchy` with the `.get(level, 0)` default. -/
def education_hierarchy : String → Nat
  | "bachelors" => 1
  | "masters" => 2
  | "phd" => 3
  | _ => 0

/-! ### Section extractor (`extract_education_section`) -/

/-- The header keywords opening the education section. -/
def education_keywords : List (List Char) :=
  [("education").data, ("qualification").data, ("degree").data,
   ("academic").data, ("university").data, ("college").data,
   ("institute").data, ("school").data]

/-- The keywords of other major sections that close the education section. -/
def section_keywords : List (List Char) :=
  [("experience").data, ("work history").data,
   ("professional experience").data, ("skills").data, ("projects").data,
   ("certification").data, ("achievements").data]

/-- Does the lowercased, stripped line contain an education header keyword? -/
def eduAny (line : List Char) : Bool :=
  education_keywords.any fun k => isSub k (stripChars (lowerChars line))

/-- Does the lowercased, stripped line contain a closing section keyword? -/
def stopAny (line : List Char) : Bool :=
  section_keywords.any fun k => isSub k (stripChars (lowerChars line))

/-- The collection loop of `extract_education_section`: a line with a header
keyword is always collected (and switches collection on); once collecting, a
line with a closing keyword and no header keyword breaks the loop; other
lines are collected when collection is on. -/
def goLines : Bool → List (List Char) → List (List Char)
  | _, [] => []
  | inEdu, line :: rest =>
    if eduAny line then line :: goLines true rest
    else if inEdu then
      if stopAny line then [] else line :: goLines inEdu rest
    else goLines inEdu rest

/-- `FixedEducationMatcher.extract_education_section`. -/
def extract_education_section (text : String) : String :=
  String.mk (joinNL (goLines false (splitLines text.data)))

/-! ### Education matcher (`FixedEducationMatcher`) -/

/-- The dataclass `EducationMatch`. -/
structure EducationMatch where
  level : String
  confidence : ℚ
  context : String
  keywords_found : List String
deriving DecidableEq, Repr

/-- The `specific_keywords` list of `calculate_confidence`. -/
def specific_keywords : List String :=
  [("phd"), ("doctorate"), ("masters"), ("mba"), ("btech"), ("bachelor")]

/-- `FixedEducationMatcher.calculate_confidence`: base 0.5, +0.3 when a found
keyword occurs in the (lowercased) education section, +0.2 when a found
keyword is one of the specific keywords, -0.1 when the section mentions
experience or work, clamped to the unit interval. -/
def calculate_confidence (keywords_found : List String)
    (education_section : String) (_level : String) : ℚ :=
  let b0 : ℚ := 1/2
  let b1 := if keywords_found.any (fun k => isSub k.data education_section.data)
    then b0 + 3/10 else b0
  let b2 := if specific_keywords.any (fun k => keywords_found.contains k)
    then b1 + 2/10 else b1
  let b3 := if isSub (("experience").data) education_section.data
      || isSub (("work").data) education_section.data
    then b2 - 1/10 else b2
  min 1 (max 0 b3)

/-- The default level list used when `target_levels` is `None` or empty
(Python truthiness of the argument). -/
def default_levels : List String := [("phd"), ("masters"), ("bachelors")]

/-- `target_levels if target_levels else` the default list. -/
def levelsToCheck : Option (List String) → List String
  | none => default_levels
  | some l => if l.isEmpty then default_levels else l

/-- All keyword matches for one level: `re.findall` of each of the level's
patterns over the lowercased text, concatenated. -/
def levelKeywords (level : String) (textLower : List Char) : List String :=
  ((education_patterns level).map (fun pat => findallP pat textLower)).flatten

/-- One iteration of the `find_education_matches` loop: the match for one
requested level, or `none` when no pattern of that level fires. -/
def levelMatch (text : String) (level : String) : Option EducationMatch :=
  let kws := levelKeywords level (lowerChars text.data)
  if kws.isEmpty then none
  else some
    { level := level
      confidence := calculate_confidence kws
        (String.mk (lowerChars (extract_education_section text).data)) level
      context := extract_education_section text
      keywords_found := kws }

/-- `FixedEducationMatcher.find_education_matches`. -/
def find_education_matches (text : String)
    (target_levels : Option (List String)) : List EducationMatch :=
  (levelsToCheck target_levels).filterMap (levelMatch text)

/-- A stable descending sort by a key into a linear order: the embedding of
Python `list.sort(key=..., reverse=True)` (and, with a lexicographic key, of
`list.sort(reverse=True)` on tuples). -/
def sortDesc {α κ : Type} [LinearOrder κ] (key : α → κ) (l : List α) : List α :=
  @List.insertionSort α (fun a b => key b ≤ key a)
    (fun a b => inferInstanceAs (Decidable (key b ≤ key a))) l

/-- `FixedEducationMatcher.get_highest_education`: no match gives `none`, a
single match is returned as is, several matches are sorted by hierarchy
descending, the first one with confidence above 0.6 wins, otherwise the
top-hierarchy one. -/
def get_highest_education (text : String)
    (target_levels : Option (List String)) : Option EducationMatch :=
  let ms := find_education_matches text target_levels
  if ms.isEmpty then none
  else if 1 < ms.length then
    let sorted := sortDesc (fun m => education_hierarchy m.level) ms
    match sorted.find? (fun m => decide ((6 : ℚ)/10 < m.confidence)) with
    | some m => some m
    | none => sorted.head?
  else ms.head?

/-- `FixedEducationMatcher.strict_education_filter`: true only when the
dominant education level is one of the (lowercased) target levels. -/
def strict_education_filter (text : String) (target_levels : List String) : Bool :=
  match get_highest_education text (some target_levels) with
  | none => false
  | some m =>
    (target_levels.map (fun l => String.mk (lowerChars l.data))).contains m.level


/-! ### Skill and experience scorer (`score_skills_and_experience`)

The years regex is `(\d+)\s*(?:\+?\s*)?(?:years|yrs|year)\b` (IGNORECASE),
run with `finditer` over the lowercased text; the scores keep the maximum
parsed integer. -/

/-- Match the part of the years pattern after the digits
(`\s*(?:\+?\s*)?(?:years|yrs|year)\b`), returning the consumed length. -/
def yearsTail (cs : List Char) : Option Nat :=
  let w1 := cs.takeWhile isPySpace
  let cs1 := cs.drop w1.length
  let pw := match cs1 with
    | '+' :: t => 1 + (t.takeWhile isPySpace).length
    | _ => 0
  let cs2 := cs1.drop pw
  match ([("years").data, ("yrs").data, ("year").data]).find?
      (fun u => (cs2.take u.length == u) &&
        wb u.getLast? (cs2.drop u.length).head?) with
  | some u => some (w1.length + pw + u.length)
  | none => none

/-- The `finditer` loop: at each position take the maximal digit run; when
the rest of the pattern follows, record the parsed value and continue after
the match, otherwise advance one character. -/
def yearsAux : Nat → List Char → List Nat
  | 0, _ => []
  | _ + 1, [] => []
  | fuel + 1, c :: rest =>
    let ds := (c :: rest).takeWhile Char.isDigit
    if ds.isEmpty then yearsAux fuel rest
    else
      match yearsTail ((c :: rest).drop ds.length) with
      | some tl =>
        natOfDigits ds :: yearsAux fuel ((c :: rest).drop (ds.length + tl))
      | none => yearsAux fuel rest

/-- Maximum years figure stated in the (lowercased) text, 0 when none. -/
def maxYears (cs : List Char) : Nat :=
  (yearsAux cs.length cs).foldl max 0

/-- `score_skills_and_experience` of `enhanced_web_app.py` (identical in
`hiresight_engine.py` and `web_app.py`): 1.0 per required skill occurring as
a lowercase substring, plus 0.5 when the maximal stated years reach
`min_years`. -/
def score_skills_and_experience (text : String) (required_skills : List String)
    (min_years : Nat) : ℚ :=
  let textLower := lowerChars text.data
  let skillScore : ℚ := required_skills.foldl
    (fun acc skill => if isSub (lowerChars skill.data) textLower then acc + 1 else acc) 0
  let years := maxYears textLower
  if min_years ≤ years then skillScore + 1/2 else skillScore

/-- `score_education` of `enhanced_web_app.py` (line 237): the confidence of
the dominant education match, 0 when there is none. -/
def score_education (text : String) (levels : List String) : ℚ :=
  match get_highest_education text (some levels) with
  | none => 0
  | some m => m.confidence

/-- `keyword_filter_education` of `enhanced_web_app.py` delegates to the
matcher's strict filter. -/
def keyword_filter_education (text : String) (levels : List String) : Bool :=
  strict_education_filter text levels

/-- The keyword table of `hiresight_engine.score_education` (the simpler
keyword-count variant). -/
def hs_education_keywords : String → List (List Char)
  | "phd" => [("phd").data, ("doctor of philosophy").data]
  | "masters" => [("masters").data, ("m.s.").data, ("ms ").data, ("m.tech").data,
      ("mtech").data, ("m.sc").data, ("msc").data]
  | "bachelors" => [("bachelors").data, ("b.e.").data, ("btech").data, ("b.tech").data,
      ("b.sc").data, ("bsc").data, ("bca").data, ("b.eng").data]
  | _ => []

/-- `hiresight_engine.score_education`: +1.0 per requested level with at
least one keyword occurring in the lowercased text (the inner loop breaks at
the first hit). -/
def hs_score_education (text : String) (levels : List String) : ℚ :=
  let textLower := lowerChars text.data
  levels.foldl
    (fun acc level =>
      if (hs_education_keywords (String.mk (lowerChars level.data))).any
          (fun kw => isSub kw textLower)
      then acc + 1 else acc) 0


/-! ### Result re-ranker and query handlers (`enhanced_web_app.py`,
`hiresight_engine.py`)

A candidate of the wide pool returned by the vector-search collaborator:
document id, document text and semantic distance.  The metadata dict that
the handlers pass through unchanged is omitted; in the tuple sort below it
could only be compared when two candidates tie on score, id, text and
distance at once, which cannot happen for the distinct ids a vector query
returns. -/

structure Cand where
  id : String
  doc : String
  dist : ℚ
deriving DecidableEq, Repr

/-- The vector-search collaborator `search_profiles`: query text, `top_k`,
`include_notes`. -/
abbrev SearchFn := String → Nat → Bool → List Cand

/-- The sort key of `rescored.sort(reverse=True)`: Python compares the
tuples `(combined, rid, doc, dist, meta)` lexicographically. -/
def entryKey (p : ℚ × Cand) : ℚ ×ₗ (String ×ₗ (String ×ₗ ℚ)) :=
  toLex (p.1, toLex (p.2.id, toLex (p.2.doc, p.2.dist)))

/-- The shared re-scoring step: compute
`combined = (1 - dist) + weight * heuristic(doc)` for every candidate and
sort the entries descending as Python `list.sort(reverse=True)` does on the
result tuples. -/
def rescore (w : ℚ) (h : String → ℚ) (pool : List Cand) : List (ℚ × Cand) :=
  sortDesc entryKey (pool.map fun c => ((1 - c.dist) + w * h c.doc, c))

/-- Comma-split, strip and drop empty parts: the parsing of the `skills`
and `levels` form fields. -/
def parseCommaList (s : String) : List String :=
  ((s.data.splitOn ',').map (fun p => stripChars p)).filterMap
    (fun p => if p.isEmpty then none else some (String.mk p))

/-- `int(re.findall(r"\d+", years_input)[0])` with the `except` fallback to
0: value of the first digit run, 0 when there is none. -/
def parseFirstNat (s : String) : Nat :=
  natOfDigits ((s.data.dropWhile (fun c => !c.isDigit)).takeWhile Char.isDigit)

/-- `api_search_jd`: strip the form field, short-circuit on the empty
string, otherwise report the collaborator ranking with similarity
`1 - dist`. -/
def api_search_jd (search : SearchFn) (jd_raw : String) : List (ℚ × Cand) :=
  let jd := stripStr jd_raw
  if jd = "" then []
  else (search jd 5 false).map fun c => ((1 : ℚ) - c.dist, c)

/-- `api_search_skills`: parse skills and years, build the semantic query,
re-score the wide pool (`top_k=10`) with weight 0.3 and return the top 5. -/
def api_search_skills (search : SearchFn) (skills_raw years_raw : String) :
    List (ℚ × Cand) :=
  let years_input := stripStr years_raw
  let min_years := if years_input = "" then 0 else parseFirstNat years_input
  let skills := parseCommaList (stripStr skills_raw)
  let semantic_query := String.intercalate (", ") skills ++
    (if min_years ≠ 0 then (", ") ++ Nat.repr min_years ++ (" years") else "")
  let candidates := search semantic_query 10 false
  (rescore (3/10) (fun doc => score_skills_and_experience doc skills min_years)
    candidates).take 5

/-- The `search_type` tag of the keyword-filtered education path
(`f"Enhanced Keyword Match ({len(keyword_filtered)} found)"`). -/
def keywordTag (n : Nat) : String :=
  ("Enhanced Keyword Match (") ++ Nat.repr n ++ (" found)")

/-- The `search_type` tag of the education fallback path. -/
def fallbackTag : String :=
  ("Enhanced Semantic Search (No exact keyword matches)")

/-- The two-stage education funnel of `api_search_education` after the wide
pool has been fetched: keep the candidates passing the strict filter and
re-rank them, or fall back to re-ranking the whole pool; either way return
the top 5 and the path tag. -/
def eduFunnel (levels : List String) (candidates : List Cand) :
    List (ℚ × Cand) × String :=
  let keyword_filtered := candidates.filter
    (fun c => keyword_filter_education c.doc levels)
  if keyword_filtered.isEmpty then
    ((rescore (4/10) (fun doc => score_education doc levels) candidates).take 5,
      fallbackTag)
  else
    ((rescore (4/10) (fun doc => score_education doc levels) keyword_filtered).take 5,
      keywordTag keyword_filtered.length)

/-- `api_search_education`: parse the levels, query the collaborator with
`top_k=30` (no empty-input guard) and run the funnel. -/
def api_search_education (search : SearchFn) (edu_raw : String) :
    List (ℚ × Cand) × String :=
  let levels := parseCommaList (stripStr edu_raw)
  let semantic_query := ("candidates with ") ++ String.intercalate (", ") levels
  eduFunnel levels (search semantic_query 30 false)

/-- `api_search_general`: strip the question and report the collaborator
ranking (no empty-input guard; `include_notes` is caller-controlled). -/
def api_search_general (search : SearchFn) (q_raw : String)
    (include_notes : Bool) : List (ℚ × Cand) :=
  let q := stripStr q_raw
  (search q 5 include_notes).map fun c => ((1 : ℚ) - c.dist, c)

/-- `hiresight_engine.search_by_skills`: same re-scoring with weight 0.3,
truncated to `top_k`. -/
def hs_search_by_skills (skills : List String) (min_years : Nat) (top_k : Nat)
    (pool : List Cand) : List (ℚ × Cand) :=
  (rescore (3/10) (fun doc => score_skills_and_experience doc skills min_years)
    pool).take top_k

/-- `hiresight_engine.search_by_education`: weight 0.4 over the
keyword-count education score, truncated to `top_k`. -/
def hs_search_by_education (levels : List String) (top_k : Nat)
    (pool : List Cand) : List (ℚ × Cand) :=
  (rescore (4/10) (fun doc => hs_score_education doc levels) pool).take top_k


/-! ### Spec-side section extractors for comparison (claim C4) -/

/-- The section extractor exactly as the claim words it: start at the first
line containing a header keyword, stop before the first subsequent line
containing a closing keyword. -/
def claim_extract_section (text : String) : String :=
  match (splitLines text.data).dropWhile (fun l => !eduAny l) with
  | [] => ""
  | l0 :: rest =>
    String.mk (joinNL (l0 :: rest.takeWhile (fun l => !stopAny l)))

/-- The claim amended to match the code: a subsequent line closes the
section only when it contains a closing keyword and no header keyword
(header keywords take precedence in the loop). -/
def claim_extract_section_amended (text : String) : String :=
  match (splitLines text.data).dropWhile (fun l => !eduAny l) with
  | [] => ""
  | l0 :: rest =>
    String.mk (joinNL (l0 :: rest.takeWhile (fun l => eduAny l || !stopAny l)))

/-! ### General lemmas about the sort and the substring test -/

theorem sortDesc_perm {α κ : Type} [LinearOrder κ] (key : α → κ) (l : List α) :
    List.Perm (sortDesc key l) l := by
  unfold sortDesc
  exact List.perm_insertionSort _ l

theorem sortDesc_sorted {α κ : Type} [LinearOrder κ] (key : α → κ) (l : List α) :
    (sortDesc key l).Sorted (fun a b => key b ≤ key a) := by
  haveI : IsTotal α (fun a b => key b ≤ key a) := ⟨fun a b => le_total (key b) (key a)⟩
  haveI : IsTrans α (fun a b => key b ≤ key a) := ⟨fun _ _ _ h1 h2 => le_trans h2 h1⟩
  unfold sortDesc
  exact List.sorted_insertionSort _ l

theorem sortDesc_mem {α κ : Type} [LinearOrder κ] (key : α → κ) (l : List α)
    (x : α) : x ∈ sortDesc key l ↔ x ∈ l :=
  (sortDesc_perm key l).mem_iff

/-- A two-element descending sort with a strictly larger first key keeps the
order. -/
theorem sortDesc_pair {α κ : Type} [LinearOrder κ] (key : α → κ) (a b : α)
    (h : key b ≤ key a) : sortDesc key [a, b] = [a, b] := by
  unfold sortDesc
  simp [List.insertionSort, List.orderedInsert, h]

theorem isSub_iff (n : List Char) : ∀ h : List Char, isSub n h = true ↔ n <:+: h := by
  intro h
  induction h with
  | nil =>
    simp only [isSub, List.isEmpty_iff, List.infix_nil]
  | cons c t ih =>
    simp only [isSub, Bool.or_eq_true, ih, List.infix_cons_iff]
    constructor
    · rintro (hb | hi)
      · exact Or.inl (List.prefix_iff_eq_take.mpr (eq_of_beq hb).symm)
      · exact Or.inr hi
    · rintro (hp | hi)
      · exact Or.inl (beq_iff_eq.mpr (List.prefix_iff_eq_take.mp hp).symm)
      · exact Or.inr hi

theorem take_slice (n : Nat) (l : List Char) : l.take n <:+: l :=
  ⟨[], l.drop n, by simp⟩

theorem drop_slice (n : Nat) (l : List Char) : l.drop n <:+: l :=
  ⟨l.take n, [], by simp⟩

/-! ### The scanner only emits slices of its input -/

theorem matchHere_spec (cands : List (List Char)) (cs cand : List Char)
    (h : matchHere cands cs = some cand) :
    cand ≠ [] ∧ cs.take cand.length = cand := by
  unfold matchHere at h
  have hp := List.find?_some h
  simp only [Bool.and_eq_true] at hp
  obtain ⟨⟨h1, h2⟩, _⟩ := hp
  refine ⟨?_, eq_of_beq h2⟩
  intro he
  subst he
  simp [List.isEmpty] at h1

theorem scanAux_slice (cands : List (List Char)) :
    ∀ (fuel : Nat) (prev : Option Char) (cs x : List Char),
      x ∈ scanAux cands fuel prev cs → x <:+: cs := by
  intro fuel
  induction fuel with
  | zero =>
    intro prev cs x hx
    simp [scanAux] at hx
  | succ n ih =>
    intro prev cs x hx
    cases cs with
    | nil => simp [scanAux] at hx
    | cons c rest =>
      simp only [scanAux] at hx
      split at hx
      · split at hx
        · rename_i cand hm
          rcases List.mem_cons.mp hx with hx | hx
          · rcases matchHere_spec cands (c :: rest) cand hm with ⟨_, ht⟩
            rw [hx]
            exact ht ▸ take_slice cand.length (c :: rest)
          · exact (ih _ _ x hx).trans (drop_slice cand.length (c :: rest))
        · exact List.infix_cons_iff.mpr (Or.inr (ih _ _ x hx))
      · exact List.infix_cons_iff.mpr (Or.inr (ih _ _ x hx))

theorem findallP_slice (pat : RePattern) (cs : List Char) (s : String)
    (h : s ∈ findallP pat cs) : s.data <:+: cs := by
  unfold findallP at h
  obtain ⟨x, hx, he⟩ := List.mem_map.mp h
  subst he
  exact scanAux_slice (candsOf pat) cs.length none cs x hx

theorem levelKeywords_slice (level : String) (cs : List Char) (kw : String)
    (h : kw ∈ levelKeywords level cs) : kw.data <:+: cs := by
  unfold levelKeywords at h
  obtain ⟨l, hl, hkw⟩ := List.mem_flatten.mp h
  obtain ⟨pat, _, he⟩ := List.mem_map.mp hl
  subst he
  exact findallP_slice pat cs kw hkw

/-! ### Structure of the matches returned by `find_education_matches` -/

theorem find_education_matches_mem (text : String) (tl : Option (List String))
    (m : EducationMatch) (h : m ∈ find_education_matches text tl) :
    m.keywords_found = levelKeywords m.level (lowerChars text.data) ∧
      m.keywords_found ≠ [] ∧
      m.level ∈ levelsToCheck tl ∧
      m.context = extract_education_section text := by
  unfold find_education_matches at h
  obtain ⟨lv, hlv, hf⟩ := List.mem_filterMap.mp h
  unfold levelMatch at hf
  by_cases hk : (levelKeywords lv (lowerChars text.data)).isEmpty
  · simp [hk] at hf
  · simp only [hk, Bool.false_eq_true, if_false, Option.some_inj] at hf
    subst hf
    refine ⟨rfl, ?_, hlv, rfl⟩
    simpa [List.isEmpty_iff] using hk

/-- A match returned by `get_highest_education` is one of the matches
computed by `find_education_matches`. -/
theorem get_highest_education_mem (text : String) (tl : Option (List String))
    (m : EducationMatch) (h : get_highest_education text tl = some m) :
    m ∈ find_education_matches text tl := by
  unfold get_highest_education at h
  by_cases h0 : (find_education_matches text tl).isEmpty
  · simp [h0] at h
  · simp only [h0, Bool.false_eq_true, if_false] at h
    by_cases h1 : 1 < (find_education_matches text tl).length
    · simp only [h1, if_true] at h
      cases hf : (sortDesc (fun m => education_hierarchy m.level)
          (find_education_matches text tl)).find?
          (fun m => decide ((6 : ℚ)/10 < m.confidence)) with
      | some m' =>
        rw [hf, Option.some_inj] at h
        subst h
        exact (sortDesc_mem _ _ m').mp (List.mem_of_find?_eq_some hf)
      | none =>
        rw [hf] at h
        exact (sortDesc_mem _ _ m).mp (List.mem_of_mem_head? h)
    · simp only [h1, if_false] at h
      exact List.mem_of_mem_head? h

/-- C9: every string in `keywords_found` of a match produced by
`find_education_matches` (and hence by `get_highest_education`) is a
substring of the lowercased input text obtained from one of the configured
patterns for that match's level; no element is synthesized. -/
theorem claim_C9 :
    (∀ (text : String) (tl : Option (List String)) (m : EducationMatch)
        (kw : String), m ∈ find_education_matches text tl →
        kw ∈ m.keywords_found →
        kw.data <:+: lowerChars text.data ∧
          ∃ pat ∈ education_patterns m.level,
            kw ∈ findallP pat (lowerChars text.data)) ∧
    (∀ (text : String) (tl : Option (List String)) (m : EducationMatch)
        (kw : String), get_highest_education text tl = some m →
        kw ∈ m.keywords_found →
        kw.data <:+: lowerChars text.data) := by
  have main : ∀ (text : String) (tl : Option (List String)) (m : EducationMatch)
      (kw : String), m ∈ find_education_matches text tl →
      kw ∈ m.keywords_found →
      kw.data <:+: lowerChars text.data ∧
        ∃ pat ∈ education_patterns m.level,
          kw ∈ findallP pat (lowerChars text.data) := by
    intro text tl m kw hm hkw
    obtain ⟨hkws, -, -, -⟩ := find_education_matches_mem text tl m hm
    rw [hkws] at hkw
    refine ⟨levelKeywords_slice m.level (lowerChars text.data) kw hkw, ?_⟩
    unfold levelKeywords at hkw
    obtain ⟨l, hl, hkw2⟩ := List.mem_flatten.mp hkw
    obtain ⟨pat, hpat, he⟩ := List.mem_map.mp hl
    exact ⟨pat, hpat, he ▸ hkw2⟩
  exact ⟨main, fun text tl m kw hm hkw =>
    (main text tl m kw (get_highest_education_mem text tl m hm) hkw).1⟩

/-- C9 witness: the match found on the document consisting of the single
word phd carries the keyword phd, a substring of the text. -/
theorem claim_C9_witness :
    (⟨("phd"), 7/10, (""), [("phd"), ("phd")]⟩ : EducationMatch) ∈
        find_education_matches ("phd") (some [("phd")]) ∧
      ("phd").data <:+: lowerChars (("phd").data) := by
  have hm : (⟨("phd"), 7/10, (""), [("phd"), ("phd")]⟩ : EducationMatch) ∈
      find_education_matches ("phd") (some [("phd")]) := by
    with_unfolding_all exact List.mem_cons_self _ _
  exact ⟨hm, (claim_C9.1 ("phd") (some [("phd")]) _ ("phd") hm
    (by decide)).1⟩

/-- C10: an empty or missing target list makes the matcher scan all three
configured levels, while the strict filter over an empty target list is
constantly false. -/
theorem claim_C10 (text : String) :
    find_education_matches text none =
        find_education_matches text (some [("phd"), ("masters"), ("bachelors")]) ∧
      find_education_matches text (some []) =
        find_education_matches text (some [("phd"), ("masters"), ("bachelors")]) ∧
      get_highest_education text none =
        get_highest_education text (some [("phd"), ("masters"), ("bachelors")]) ∧
      get_highest_education text (some []) =
        get_highest_education text (some [("phd"), ("masters"), ("bachelors")]) ∧
      strict_education_filter text [] = false := by
  refine ⟨rfl, rfl, rfl, rfl, ?_⟩
  unfold strict_education_filter
  cases h : get_highest_education text (some []) with
  | none => rfl
  | some m => rfl

/-- C5: the confidence formula is exactly base 0.5, +0.3 for a keyword
occurring inside the education section, +0.2 for a strong keyword, -0.1 for
experience/work leakage in the section, clamped to the unit interval, so
every confidence lies in the unit interval. -/
theorem claim_C5 (kws : List String) (sect : String) (level : String) :
    calculate_confidence kws sect level =
      min 1 (max 0 ((1/2 : ℚ)
        + (if ∃ k ∈ kws, k.data <:+: sect.data then 3/10 else 0)
        + (if ∃ k ∈ kws, k ∈ specific_keywords then 2/10 else 0)
        - (if ("experience").data <:+: sect.data ∨ ("work").data <:+: sect.data
            then 1/10 else 0)))
      ∧ 0 ≤ calculate_confidence kws sect level
      ∧ calculate_confidence kws sect level ≤ 1 := by
  have h1 : (kws.any (fun k => isSub k.data sect.data) = true) ↔
      ∃ k ∈ kws, k.data <:+: sect.data := by
    rw [List.any_eq_true]
    exact exists_congr fun k => and_congr_right fun _ => isSub_iff _ _
  have h2 : (specific_keywords.any (fun k => kws.contains k) = true) ↔
      ∃ k ∈ kws, k ∈ specific_keywords := by
    rw [List.any_eq_true]
    constructor
    · rintro ⟨k, hk1, hk2⟩
      exact ⟨k, by simpa using hk2, hk1⟩
    · rintro ⟨k, hk1, hk2⟩
      exact ⟨k, hk2, by simpa using hk1⟩
  have h3 : ((isSub (("experience").data) sect.data
        || isSub (("work").data) sect.data) = true) ↔
      (("experience").data <:+: sect.data ∨ ("work").data <:+: sect.data) := by
    rw [Bool.or_eq_true, isSub_iff, isSub_iff]
  refine ⟨?_, ?_, ?_⟩
  · unfold calculate_confidence
    simp only [h1, h2, h3]
    split_ifs <;> ring_nf
  · unfold calculate_confidence
    exact le_min (by norm_num) (le_max_left 0 _)
  · unfold calculate_confidence
    exact min_le_left 1 _

/-- `find_education_matches` is empty exactly when no configured pattern of
any scanned level matches the lowercased text. -/
theorem find_eq_nil_iff (text : String) (tl : Option (List String)) :
    find_education_matches text tl = [] ↔
      ∀ l ∈ levelsToCheck tl, ∀ pat ∈ education_patterns l,
        findallP pat (lowerChars text.data) = [] := by
  unfold find_education_matches
  rw [List.filterMap_eq_nil_iff]
  refine forall_congr' fun l => forall_congr' fun hl => ?_
  unfold levelMatch
  constructor
  · intro h pat hpat
    by_cases hk : (levelKeywords l (lowerChars text.data)).isEmpty
    · have hk2 : levelKeywords l (lowerChars text.data) = [] := by
        simpa [List.isEmpty_iff] using hk
      unfold levelKeywords at hk2
      rw [List.flatten_eq_nil_iff] at hk2
      exact hk2 _ (List.mem_map.mpr ⟨pat, hpat, rfl⟩)
    · simp [hk] at h
  · intro h
    have hk2 : levelKeywords l (lowerChars text.data) = [] := by
      unfold levelKeywords
      rw [List.flatten_eq_nil_iff]
      intro x hx
      obtain ⟨pat, hpat, he⟩ := List.mem_map.mp hx
      exact he ▸ h pat hpat
    simp [hk2]

/-- C1: with a non-empty requested level list, `get_highest_education`
returns none exactly when no configured pattern of a requested level matches
the lowercased text, returns the unique match when there is exactly one,
and with several matches sorts them by hierarchy ordinal (bachelors=1 <
masters=2 < phd=3) descending, returning the first match with confidence
strictly above 0.6, or the top-ordinal match when none exceeds it; the
result is always none or exactly one match. -/
theorem claim_C1 (text : String) (levels : List String) (hne : levels ≠ []) :
    education_hierarchy ("bachelors") = 1 ∧
      education_hierarchy ("masters") = 2 ∧
      education_hierarchy ("phd") = 3 ∧
    (get_highest_education text (some levels) = none ↔
      find_education_matches text (some levels) = []) ∧
    (find_education_matches text (some levels) = [] ↔
      ∀ l ∈ levels, ∀ pat ∈ education_patterns l,
        findallP pat (lowerChars text.data) = []) ∧
    (∀ m, find_education_matches text (some levels) = [m] →
      get_highest_education text (some levels) = some m) ∧
    (1 < (find_education_matches text (some levels)).length →
      get_highest_education text (some levels) =
        (match (sortDesc (fun m => education_hierarchy m.level)
            (find_education_matches text (some levels))).find?
            (fun m => decide ((6 : ℚ)/10 < m.confidence)) with
         | some m => some m
         | none => (sortDesc (fun m => education_hierarchy m.level)
             (find_education_matches text (some levels))).head?)) := by
  have hle : levels.isEmpty = false := by
    cases levels with
    | nil => exact absurd rfl hne
    | cons a l => rfl
  have hltc : levelsToCheck (some levels) = levels := by
    simp [levelsToCheck, hle]
  refine ⟨rfl, rfl, rfl, ?_, ?_, ?_, ?_⟩
  · -- none exactly on the empty match list
    constructor
    · intro h
      by_contra hne2
      rcases hms : find_education_matches text (some levels) with _ | ⟨m1, ms'⟩
      · exact hne2 hms
      · rcases ms' with _ | ⟨m2, ms''⟩
        · simp [get_highest_education, hms] at h
        · rw [get_highest_education] at h
          rw [hms] at h
          simp only [List.isEmpty_cons, Bool.false_eq_true, if_false,
            List.length_cons] at h
          have hlen : 1 < ms''.length + 1 + 1 := by omega
          rw [if_pos hlen] at h
          cases hf : (sortDesc (fun m => education_hierarchy m.level)
              (m1 :: m2 :: ms'')).find?
              (fun m => decide ((6 : ℚ)/10 < m.confidence)) with
          | some m' => rw [hf] at h; exact Option.noConfusion h
          | none =>
            rw [hf] at h
            have hnil : sortDesc (fun m => education_hierarchy m.level)
                (m1 :: m2 :: ms'') ≠ [] := by
              intro h0
              have hp := sortDesc_perm (fun m => education_hierarchy m.level)
                (m1 :: m2 :: ms'')
              rw [h0] at hp
              exact List.noConfusion hp.symm.eq_nil
            rcases hs : sortDesc (fun m => education_hierarchy m.level)
                (m1 :: m2 :: ms'') with _ | ⟨s1, ss⟩
            · exact hnil hs
            · rw [hs] at h
              exact Option.noConfusion h
    · intro h
      simp [get_highest_education, h]
  · rw [find_eq_nil_iff, hltc]
  · intro m hm
    simp [get_highest_education, hm]
  · intro hlen
    rcases hms : find_education_matches text (some levels) with _ | ⟨m1, ms'⟩
    · rw [hms] at hlen
      simp at hlen
    · rw [get_highest_education]
      rw [hms] at hlen ⊢
      simp only [List.isEmpty_cons, Bool.false_eq_true, if_false]
      rw [if_pos hlen]

/-- C1 witness: on the single-word document phd with requested level phd the
resolver returns the unique match. -/
theorem claim_C1_witness :
    get_highest_education ("phd") (some [("phd")]) =
      some ⟨("phd"), 7/10, (""), [("phd"), ("phd")]⟩ := by
  have h := claim_C1 ("phd") [("phd")] (by decide)
  exact h.2.2.2.2.2.1 _ (by with_unfolding_all rfl)

theorem goLines_true_eq (ls : List (List Char)) :
    goLines true ls = ls.takeWhile (fun l => eduAny l || !stopAny l) := by
  induction ls with
  | nil => rfl
  | cons l rest ih =>
    by_cases he : eduAny l
    · simp [goLines, he, List.takeWhile_cons, ih]
    · by_cases hs : stopAny l
      · simp [goLines, he, hs, List.takeWhile_cons]
      · simp [goLines, he, hs, List.takeWhile_cons, ih]

theorem goLines_false_eq (ls : List (List Char)) :
    goLines false ls =
      (match ls.dropWhile (fun l => !eduAny l) with
       | [] => []
       | l0 :: rest => l0 :: goLines true rest) := by
  induction ls with
  | nil => rfl
  | cons l rest ih =>
    by_cases he : eduAny l
    · simp [goLines, he, List.dropWhile_cons]
    · simp [goLines, he, List.dropWhile_cons, ih]

/-- C4 counterexample: in the document whose lines are education /
university experience / skills, the claim predicts the section to stop
before the line containing experience, but the code keeps that line because
it also contains the header keyword university. -/
theorem claim_C4_counterexample :
    claim_extract_section ("education\nuniversity experience\nskills") =
        ("education") ∧
      extract_education_section ("education\nuniversity experience\nskills") =
        ("education\nuniversity experience") ∧
      extract_education_section ("education\nuniversity experience\nskills") ≠
        claim_extract_section ("education\nuniversity experience\nskills") := by
  exact ⟨by decide, by decide, by decide⟩

/-- C4 amended: the section starts at the first line containing a header
keyword and ends before the first subsequent line that contains a closing
keyword and no header keyword; empty when no header keyword occurs; exactly
the header line when it is the last line. -/
theorem claim_C4_amended (text : String) :
    extract_education_section text = claim_extract_section_amended text := by
  unfold extract_education_section claim_extract_section_amended
  rw [goLines_false_eq]
  cases hd : (splitLines text.data).dropWhile (fun l => !eduAny l) with
  | nil => rfl
  | cons l0 rest =>
    dsimp only
    rw [goLines_true_eq]

/-- A two-element `filterMap` producing a two-element list succeeds on both
inputs. -/
theorem filterMap_pair {α β : Type} (f : α → Option β) (a b : α) (x y : β)
    (h : List.filterMap f [a, b] = [x, y]) : f a = some x ∧ f b = some y := by
  cases ha : f a with
  | none =>
    cases hb : f b with
    | none => simp [List.filterMap_cons, ha, hb] at h
    | some z => simp [List.filterMap_cons, ha, hb] at h
  | some z =>
    cases hb : f b with
    | none => simp [List.filterMap_cons, ha, hb] at h
    | some w =>
      have h' : z :: w :: [] = [x, y] := by
        simpa [List.filterMap_cons, ha, hb] using h
      injection h' with e1 h''
      injection h'' with e2 _
      subst e1
      subst e2
      exact ⟨rfl, rfl⟩

/-- The match produced for a level carries that level name. -/
theorem levelMatch_level (text : String) (l : String) (m : EducationMatch)
    (h : levelMatch text l = some m) : m.level = l := by
  unfold levelMatch at h
  by_cases hk : (levelKeywords l (lowerChars text.data)).isEmpty
  · simp [hk] at h
  · simp only [hk, Bool.false_eq_true, if_false, Option.some_inj] at h
    rw [← h]

/-- C6 amended: when both a phd and a bachelors match are found for
target levels phd and bachelors, the phd match is returned whenever its
confidence exceeds 0.6 or neither confidence does; when the phd confidence
is at most 0.6 while the bachelors confidence exceeds it, the threshold rule
returns the bachelors match instead. -/
theorem claim_C6_amended (text : String) (mp mb : EducationMatch)
    (hfind : find_education_matches text (some [("phd"), ("bachelors")]) = [mp, mb]) :
    (((6 : ℚ)/10 < mp.confidence ∨ mb.confidence ≤ (6 : ℚ)/10) →
      get_highest_education text (some [("phd"), ("bachelors")]) = some mp ∧
        mp.level = ("phd")) ∧
    (mp.confidence ≤ (6 : ℚ)/10 → (6 : ℚ)/10 < mb.confidence →
      get_highest_education text (some [("phd"), ("bachelors")]) = some mb ∧
        mb.level = ("bachelors")) := by
  obtain ⟨hphd, hbach⟩ :=
    filterMap_pair (levelMatch text) ("phd") ("bachelors") mp mb hfind
  have hpl : mp.level = ("phd") := levelMatch_level text _ mp hphd
  have hbl : mb.level = ("bachelors") := levelMatch_level text _ mb hbach
  have hkey : education_hierarchy mb.level ≤ education_hierarchy mp.level := by
    rw [hpl, hbl]
    decide
  have hget : get_highest_education text (some [("phd"), ("bachelors")]) =
      (if (6 : ℚ)/10 < mp.confidence then some mp
       else if (6 : ℚ)/10 < mb.confidence then some mb else some mp) := by
    rw [get_highest_education, hfind]
    simp only [List.isEmpty_cons, Bool.false_eq_true, if_false,
      List.length_cons, List.length_nil]
    rw [if_pos (by omega)]
    rw [sortDesc_pair _ mp mb hkey]
    by_cases c1 : (6 : ℚ)/10 < mp.confidence
    · simp [List.find?, c1]
    · by_cases c2 : (6 : ℚ)/10 < mb.confidence
      · simp [List.find?, c1, c2]
      · simp [List.find?, c1, c2]
  refine ⟨?_, ?_⟩
  · intro hc
    refine ⟨?_, hpl⟩
    rcases hc with hc | hc
    · rw [hget, if_pos hc]
    · by_cases c1 : (6 : ℚ)/10 < mp.confidence
      · rw [hget, if_pos c1]
      · rw [hget, if_neg c1, if_neg (not_lt.mpr hc)]
  · intro hc1 hc2
    refine ⟨?_, hbl⟩
    rw [hget, if_neg (not_lt.mpr hc1), if_pos hc2]

/-- C6 counterexample: the document phd / university experience btech
contains surface forms of both phd and btech, yet with target levels phd
and bachelors the resolver returns the bachelors match, because the phd
confidence lands at exactly 0.6 (not above) while the bachelors confidence
is 0.9. -/
theorem claim_C6_counterexample :
    isSub (("phd").data) (lowerChars (("phd\nuniversity experience btech").data)) = true ∧
    isSub (("btech").data) (lowerChars (("phd\nuniversity experience btech").data)) = true ∧
    findallP phdPat1 (lowerChars (("phd\nuniversity experience btech").data)) ≠ [] ∧
    findallP bachelorsPat1 (lowerChars (("phd\nuniversity experience btech").data)) ≠ [] ∧
    (get_highest_education ("phd\nuniversity experience btech")
        (some [("phd"), ("bachelors")])).map (fun m => m.level) =
      some ("bachelors") := by
  refine ⟨by decide, by decide, by decide, by decide, ?_⟩
  with_unfolding_all rfl

/-- C6 witness: on the document phd btech both confidences are 0.7, the phd
confidence exceeds 0.6, and the phd match wins. -/
theorem claim_C6_witness :
    get_highest_education ("phd btech") (some [("phd"), ("bachelors")]) =
        some ⟨("phd"), 7/10, (""), [("phd"), ("phd")]⟩ ∧
      (⟨("phd"), 7/10, (""), [("phd"), ("phd")]⟩ : EducationMatch).level = ("phd") := by
  have h := claim_C6_amended ("phd btech")
    ⟨("phd"), 7/10, (""), [("phd"), ("phd")]⟩
    ⟨("bachelors"), 7/10, (""), [("btech"), ("btech")]⟩
    (by with_unfolding_all rfl)
  exact h.1 (Or.inl (by norm_num))

/-! ### Properties of the re-ranker -/

/-- Every entry of a re-scored pool carries the composite
`(1 - dist) + w * h(doc)` of its candidate. -/
theorem rescore_mem (w : ℚ) (h : String → ℚ) (pool : List Cand) (p : ℚ × Cand)
    (hp : p ∈ rescore w h pool) :
    p.1 = (1 - p.2.dist) + w * h p.2.doc := by
  unfold rescore at hp
  obtain ⟨c, _, he⟩ := List.mem_map.mp ((sortDesc_mem entryKey _ p).mp hp)
  rw [← he]

/-- The first component of the tuple order dominates: a key comparison
yields a composite comparison. -/
theorem entryKey_le_fst {x y : ℚ × Cand} (hxy : entryKey x ≤ entryKey y) :
    x.1 ≤ y.1 := by
  rcases (Prod.Lex.le_iff _ _).mp hxy with h | ⟨h, -⟩
  · exact le_of_lt h
  · exact le_of_eq h

/-- C7 counterexample: two candidates with equal composite scores, pool
order a then b, leave the re-ranker in the order b then a: Python sorts the
whole tuples in reverse, so ties in the composite are broken by the id
descending, not by the original pool order. -/
theorem claim_C7_counterexample :
    rescore (3/10) (fun doc => score_skills_and_experience doc [] 3)
        [⟨("a"), ("x"), 1/2⟩, ⟨("b"), ("x"), 1/2⟩] =
      [((1 : ℚ)/2, ⟨("b"), ("x"), 1/2⟩), ((1 : ℚ)/2, ⟨("a"), ("x"), 1/2⟩)] ∧
    (1 - (1 : ℚ)/2) + (3/10) * score_skills_and_experience ("x") [] 3 = 1/2 ∧
    (rescore (3/10) (fun doc => score_skills_and_experience doc [] 3)
        [⟨("a"), ("x"), 1/2⟩, ⟨("b"), ("x"), 1/2⟩]).map (fun p => p.2.id) =
      [("b"), ("a")] ∧
    ([("b"), ("a")] : List String) ≠ [("a"), ("b")] := by
  refine ⟨by with_unfolding_all rfl, by with_unfolding_all rfl,
    by with_unfolding_all rfl, by decide⟩

/-- C7 amended: the re-ranked output is a permutation of the scored pool,
sorted by composite descending, with ties broken by the descending
lexicographic order of the remaining tuple components (id, document text,
distance) rather than by original pool order. -/
theorem claim_C7_amended (w : ℚ) (h : String → ℚ) (pool : List Cand) :
    List.Perm (rescore w h pool)
        (pool.map fun c => ((1 - c.dist) + w * h c.doc, c)) ∧
      (rescore w h pool).Sorted (fun x y => entryKey y ≤ entryKey x) ∧
      (rescore w h pool).Sorted (fun x y => y.1 ≤ x.1) := by
  refine ⟨sortDesc_perm _ _, sortDesc_sorted _ _, ?_⟩
  exact List.Pairwise.imp (fun hab => entryKey_le_fst hab) (sortDesc_sorted entryKey _)

/-- C3: each query kind combines semantic similarity and heuristic score as
`(1 - dist) + weight * heuristic` with weight 0.3 for skills, 0.4 for
education (both handler variants), and 0 for free-text JD and general
queries; on the documented example with similarities 0.9 and 0.5 and skill
scores 0 and 2 the composites are 0.9 and 1.1 and the second candidate
ranks first. -/
theorem claim_C3 :
    (∀ (skills : List String) (my : Nat) (pool : List Cand) (p : ℚ × Cand),
      p ∈ rescore (3/10) (fun d => score_skills_and_experience d skills my) pool →
        p.1 = (1 - p.2.dist) + (3/10) * score_skills_and_experience p.2.doc skills my) ∧
    (∀ (levels : List String) (pool : List Cand) (p : ℚ × Cand),
      p ∈ rescore (4/10) (fun d => score_education d levels) pool →
        p.1 = (1 - p.2.dist) + (4/10) * score_education p.2.doc levels) ∧
    (∀ (levels : List String) (pool : List Cand) (p : ℚ × Cand),
      p ∈ rescore (4/10) (fun d => hs_score_education d levels) pool →
        p.1 = (1 - p.2.dist) + (4/10) * hs_score_education p.2.doc levels) ∧
    (∀ (search : SearchFn) (jd : String) (p : ℚ × Cand),
      p ∈ api_search_jd search jd → p.1 = 1 - p.2.dist) ∧
    (∀ (search : SearchFn) (q : String) (inc : Bool) (p : ℚ × Cand),
      p ∈ api_search_general search q inc → p.1 = 1 - p.2.dist) ∧
    (score_skills_and_experience ("c and go") [("python"), ("java")] 3 = 0 ∧
      score_skills_and_experience ("python java") [("python"), ("java")] 3 = 2 ∧
      rescore (3/10)
          (fun d => score_skills_and_experience d [("python"), ("java")] 3)
          [⟨("r1"), ("c and go"), 1/10⟩, ⟨("r2"), ("python java"), 1/2⟩] =
        [((11 : ℚ)/10, ⟨("r2"), ("python java"), 1/2⟩),
         ((9 : ℚ)/10, ⟨("r1"), ("c and go"), 1/10⟩)]) := by
  refine ⟨fun skills my pool p hp => rescore_mem _ _ pool p hp,
    fun levels pool p hp => rescore_mem _ _ pool p hp,
    fun levels pool p hp => rescore_mem _ _ pool p hp, ?_, ?_, ?_, ?_, ?_⟩
  · intro search jd p hp
    unfold api_search_jd at hp
    by_cases hq : stripStr jd = ""
    · simp [hq] at hp
    · rw [if_neg hq] at hp
      obtain ⟨c, _, he⟩ := List.mem_map.mp hp
      rw [← he]
  · intro search q inc p hp
    obtain ⟨c, _, he⟩ := List.mem_map.mp hp
    rw [← he]
  · with_unfolding_all rfl
  · with_unfolding_all rfl
  · with_unfolding_all rfl

/-- C3 witness: the formula conjunct applied to the documented example pool
gives the composite 1.1 for the python java candidate. -/
theorem claim_C3_witness :
    ((11 : ℚ)/10, (⟨("r2"), ("python java"), 1/2⟩ : Cand)).1 =
      (1 - ((⟨("r2"), ("python java"), 1/2⟩ : Cand)).dist) +
        (3/10) * score_skills_and_experience
          ((⟨("r2"), ("python java"), 1/2⟩ : Cand)).doc
          [("python"), ("java")] 3 := by
  have hmem : ((11 : ℚ)/10, (⟨("r2"), ("python java"), 1/2⟩ : Cand)) ∈
      rescore (3/10)
        (fun d => score_skills_and_experience d [("python"), ("java")] 3)
        [⟨("r1"), ("c and go"), 1/10⟩, ⟨("r2"), ("python java"), 1/2⟩] := by
    with_unfolding_all exact List.mem_cons_self _ _
  exact claim_C3.1 [("python"), ("java")] 3 _ _ hmem

/-- C2: when the wide pool is non-empty but no candidate passes the strict
education filter, the funnel re-ranks the full unfiltered pool with the same
composite formula, returns its top five, tags the response with the fallback
tag, which differs from every keyword-path tag, and the result list is
non-empty. -/
theorem claim_C2 (levels : List String) (candidates : List Cand)
    (hne : candidates ≠ [])
    (hfail : ∀ c ∈ candidates, strict_education_filter c.doc levels = false) :
    eduFunnel levels candidates =
        ((rescore (4/10) (fun doc => score_education doc levels) candidates).take 5,
          fallbackTag) ∧
      (eduFunnel levels candidates).1 ≠ [] ∧
      (∀ n : Nat, fallbackTag ≠ keywordTag n) := by
  have hfe : candidates.filter
      (fun c => keyword_filter_education c.doc levels) = [] := by
    rw [List.filter_eq_nil_iff]
    intro c hc
    rw [keyword_filter_education, hfail c hc]
    exact Bool.false_ne_true
  have hfun : eduFunnel levels candidates =
      ((rescore (4/10) (fun doc => score_education doc levels) candidates).take 5,
        fallbackTag) := by
    unfold eduFunnel
    rw [hfe]
    rfl
  have hlen : (rescore (4/10) (fun doc => score_education doc levels)
      candidates).length = candidates.length := by
    unfold rescore
    rw [(sortDesc_perm entryKey _).length_eq, List.length_map]
  have htags : ∀ n : Nat, fallbackTag ≠ keywordTag n := by
    intro n heq
    have hd := congrArg String.data heq
    have hR : ((keywordTag n).data).take 24 = ("Enhanced Keyword Match (").data := by
      unfold keywordTag
      rw [String.data_append, String.data_append, List.append_assoc]
      rw [show (24 : Nat) = (("Enhanced Keyword Match (").data).length from rfl]
      exact List.take_left _ _
    have hL : (fallbackTag.data).take 24 ≠ ("Enhanced Keyword Match (").data := by
      decide
    exact hL (by rw [hd, hR])
  refine ⟨hfun, ?_, htags⟩
  rw [hfun]
  intro h0
  rcases List.take_eq_nil_iff.mp h0 with h5 | hnil
  · exact absurd h5 (by decide)
  · rw [hnil] at hlen
    exact hne (List.length_eq_zero.mp hlen.symm)

/-- C2 witness: a one-candidate pool in which the strict filter (with the
empty level list) rejects everything takes the fallback path and still
returns a result. -/
theorem claim_C2_witness :
    eduFunnel [] [⟨("a"), ("x"), 1/2⟩] =
        ((rescore (4/10) (fun doc => score_education doc [])
            [⟨("a"), ("x"), 1/2⟩]).take 5, fallbackTag) ∧
      (eduFunnel [] [⟨("a"), ("x"), 1/2⟩]).1 ≠ [] ∧
      (∀ n : Nat, fallbackTag ≠ keywordTag n) :=
  claim_C2 [] [⟨("a"), ("x"), 1/2⟩] (by decide) (by decide)

/-- C8 counterexample: a whitespace-only general query still consults the
collaborator and returns its candidate, and an empty education query does
the same, contradicting the claim that every query kind short-circuits to an
empty result. -/
theorem claim_C8_counterexample :
    api_search_general (fun _ _ _ => [⟨("a"), ("x"), 1/2⟩]) ("   ") true =
        [((1 : ℚ)/2, ⟨("a"), ("x"), 1/2⟩)] ∧
      api_search_general (fun _ _ _ => [⟨("a"), ("x"), 1/2⟩]) ("   ") true ≠ [] ∧
      (api_search_education (fun _ _ _ => [⟨("a"), ("x"), 1/2⟩]) ("")).1 =
        [((1 : ℚ)/2, ⟨("a"), ("x"), 1/2⟩)] ∧
      (api_search_education (fun _ _ _ => [⟨("a"), ("x"), 1/2⟩]) ("")).1 ≠ [] := by
  have h1 : api_search_general (fun _ _ _ => [⟨("a"), ("x"), 1/2⟩]) ("   ") true =
      [((1 : ℚ)/2, ⟨("a"), ("x"), 1/2⟩)] := by
    with_unfolding_all rfl
  have h2 : (api_search_education (fun _ _ _ => [⟨("a"), ("x"), 1/2⟩]) ("")).1 =
      [((1 : ℚ)/2, ⟨("a"), ("x"), 1/2⟩)] := by
    with_unfolding_all rfl
  refine ⟨h1, ?_, h2, ?_⟩
  · rw [h1]
    exact fun h => List.noConfusion h
  · rw [h2]
    exact fun h => List.noConfusion h

/-- C8 amended: only the JD handler short-circuits on empty or
whitespace-only input (returning an empty result independently of the
collaborator); the general, education and skills handlers call the
collaborator with the constructed semantic query regardless. -/
theorem claim_C8_amended :
    (∀ (search : SearchFn) (jd : String), stripStr jd = "" →
      api_search_jd search jd = []) ∧
    (∀ (s1 s2 : SearchFn) (jd : String), stripStr jd = "" →
      api_search_jd s1 jd = api_search_jd s2 jd) ∧
    (∀ (search : SearchFn) (q : String) (inc : Bool),
      api_search_general search q inc =
        (search (stripStr q) 5 inc).map fun c => ((1 : ℚ) - c.dist, c)) ∧
    (∀ (search : SearchFn) (raw : String), stripStr raw = "" →
      api_search_education search raw =
        eduFunnel [] (search ("candidates with ") 30 false)) ∧
    (∀ (search : SearchFn) (sraw yraw : String), stripStr sraw = "" →
      stripStr yraw = "" →
      api_search_skills search sraw yraw =
        (rescore (3/10) (fun doc => score_skills_and_experience doc [] 0)
          (search ("") 10 false)).take 5) := by
  refine ⟨?_, ?_, ?_, ?_, ?_⟩
  · intro search jd h
    simp [api_search_jd, h]
  · intro s1 s2 jd h
    simp [api_search_jd, h]
  · intro search q inc
    rfl
  · intro search raw h
    simp only [api_search_education, h]
    with_unfolding_all rfl
  · intro search sraw yraw h1 h2
    simp only [api_search_skills, h1, h2]
    with_unfolding_all rfl

/-- C8 witness: the JD guard applied to a whitespace-only query. -/
theorem claim_C8_witness :
    api_search_jd (fun _ _ _ => [⟨("a"), ("x"), 1/2⟩]) ("   ") = [] :=
  claim_C8_amended.1 (fun _ _ _ => [⟨("a"), ("x"), 1/2⟩]) ("   ") (by decide)

/-! ### Model validation against the diagnostic cases shipped with the
repository (`test_fixed_matcher` in `fixed_education_matcher.py`) -/

theorem validate_findall_phd :
    findallP phdPat1 (("phd").data) = [("phd")] ∧
      findallP phdPat1 (("my phd.x dphil").data) = [("phd."), ("dphil")] ∧
      findallP mastersPat1 (("m.s. and mtech").data) = [("m.s"), ("mtech")] ∧
      findallP bachelorsPat1 (("b.t ech btech").data) = [("btech")] := by
  refine ⟨by decide, by decide, by decide, by decide⟩

theorem validate_extract_section :
    extract_education_section ("a\neducation x\nb\nskills y\nc") =
      ("education x\nb") := by
  decide

theorem validate_strict_filter_spaced_btech :
    strict_education_filter
      ("2015 B.T ech. ECE from ITER, NAME O NAME with 7.21 CGPA 2011 12thf rom NAME School")
      [("phd")] = false := by
  decide

theorem validate_strict_filter_mtech_btech :
    strict_education_filter
      ("Mtech In Artificial Intelligence Data Science Engineering JULY 2024 present P UNJABI UNIVERSITY Patiala,Punjab,india Btech In Computer Science Engineering 2015 2019")
      [("masters")] = true := by
  decide

theorem validate_skill_scores :
    score_skills_and_experience ("python, 5 years of java") [("python"), ("java")] 3
        = 5/2 ∧
      score_skills_and_experience ("python 12+ yrs") [("python")] 10 = 3/2 ∧
      score_skills_and_experience ("go") [("python")] 0 = 1/2 ∧
      maxYears (("3 years then 12 years then 7 yearly").data) = 12 := by
  refine ⟨by with_unfolding_all rfl, by with_unfolding_all rfl,
    by with_unfolding_all rfl, by decide⟩
